import Mathlib

/-!
Verification development for the worker-pool task scheduler of
`src/integral/integral_thread_pool.cpp` and `src/integral/integral.cpp`.

The numeric code (`IntegralTask`) is embedded over the real numbers: the
C++ `double` arithmetic is modelled by exact real arithmetic, `std::ceil`
followed by the `int` cast by the integer ceiling `⌈·⌉ : ℝ → ℤ`, and the
`for` loop of `compute` by a left fold over `List.range`, mirroring the
accumulation order of the source.

The `ThreadPool` class (identical in both files apart from the name of the
stop flag) is embedded as a labelled transition system `Step` over
`PoolState`: the queue of `std::function<void()>` closures becomes a
FIFO list of task identifiers, each identifier `i` denoting the closure
captured at the `i`-th call to `submit`; the behaviour of the `i`-th closure
is given by an environment `run : ℕ → Except String α` (`Except.error`
models a C++ exception raised by the callable, which `std::packaged_task`
captures into the shared state instead of letting it escape).  The
per-task `std::future` shared state becomes the map `handles`, and the
consuming read `std::future::get` is modelled separately by `FutureState`.
-/

namespace CppParallel

/-- Embedding of the `IntegralTask` struct (fields `xp_`, `xk_`, `dx_`, `N_`)
shared by `integral_thread_pool.cpp` and `integral.cpp`. -/
structure IntegralTask where
  xp_ : ℝ
  xk_ : ℝ
  dx_ : ℝ
  N_ : ℤ

/-- Embedding of the `IntegralTask(xp, xk, dx)` constructor:
`N_ = static_cast<int>(std::ceil((xk - xp) / dx)); dx_ = (xk - xp) / N_;`.
In Lean, division of a real by `(0 : ℝ)` yields `0`, which stands in for the
unguarded C++ division when `N_ = 0`. -/
noncomputable def IntegralTask.ofParams (xp xk dx : ℝ) : IntegralTask :=
  { xp_ := xp, xk_ := xk
    dx_ := (xk - xp) / ((⌈(xk - xp) / dx⌉ : ℤ) : ℝ)
    N_ := ⌈(xk - xp) / dx⌉ }

/-- The `i`-th trapezoid term of the loop body of `IntegralTask::compute`:
`x1 = xp_ + i * dx_; x2 = x1 + dx_; (sin(x1) + sin(x2)) / 2.0 * dx_`. -/
noncomputable def IntegralTask.trapTerm (t : IntegralTask) (i : ℕ) : ℝ :=
  (Real.sin (t.xp_ + (i : ℝ) * t.dx_) +
    Real.sin (t.xp_ + (i : ℝ) * t.dx_ + t.dx_)) / 2 * t.dx_

/-- Embedding of `IntegralTask::compute`: the loop
`for (int i = 0; i < N_; ++i) integral += ...` runs `max N_ 0 = N_.toNat`
times and accumulates left-to-right from `0`. -/
noncomputable def IntegralTask.compute (t : IntegralTask) : ℝ :=
  (List.range t.N_.toNat).foldl (fun integral i => integral + t.trapTerm i) 0

/-- Abstract state of the `ThreadPool` class.
`queue` is `tasks_` (FIFO, identifiers in submission order), `stop` is the
`stop_` / `flag_stop_` flag, `nextId` counts calls to `submit`, `execOrder`
records the identifiers in the order workers popped (and ran) them,
`handles i` is the shared state of the `i`-th `std::future` (`none` =
pending), and `liveWorkers` counts worker threads that have not returned. -/
structure PoolState (α : Type) where
  queue : List ℕ
  stop : Bool
  nextId : ℕ
  execOrder : List ℕ
  handles : ℕ → Option (Except String α)
  liveWorkers : ℕ

/-- Embedding of the `ThreadPool(int threads)` constructor: the loop
`for (int i = 0; i < threads; ++i) workers_.emplace_back(...)` spawns
`threads` workers when `threads ≥ 1` and none otherwise (`Int.toNat`),
with an empty queue, a cleared stop flag and no submissions.  There is no
failure path: the constructor returns a state for every argument. -/
def mkPool (threads : ℤ) (α : Type) : PoolState α :=
  { queue := [], stop := false, nextId := 0, execOrder := []
    handles := fun _ => none, liveWorkers := threads.toNat }

/-- Embedding of `ThreadPool::submit`: wraps the callable in a
`packaged_task`, appends the wrapper to the tail of `tasks_` under the lock,
and returns the paired future (here: the fresh identifier `s.nextId`).
The source contains no check of the stop flag and no rejection path. -/
def submit {α : Type} (s : PoolState α) : PoolState α × ℕ :=
  ({ s with queue := s.queue ++ [s.nextId], nextId := s.nextId + 1 }, s.nextId)

/-- Embedding of the body of `~ThreadPool`: sets the stop flag under the
lock (the `notify_all` wake-up has no counterpart in the abstract state). -/
def shutdownStep {α : Type} (s : PoolState α) : PoolState α :=
  { s with stop := true }

/-- `n` successive calls to `submit`, ignoring the returned handles. -/
def submitN {α : Type} (s : PoolState α) : ℕ → PoolState α
  | 0 => s
  | n + 1 => (submit (submitN s n)).1

/-- One step of the system at coarse granularity: `workerRun` merges the
mutex-protected pop of the queue head (`tasks_.front()` / `tasks_.pop()`)
and the subsequent out-of-lock execution `task()` — which is when
`std::packaged_task` stores the callable's value or raised exception into
the future's shared state — into one atomic transition.  This suffices for
properties that are insensitive to that granularity (FIFO dequeue order,
exactly-once execution and resolution, failure isolation, drained-queue
sums); the in-flight window between pop and resolution that the source
really has is modelled faithfully by `FineStep` below.  The worker lambda
waits on `stop_ || !tasks_.empty()`; if `stop_ && tasks_.empty()` it
returns, otherwise it pops the queue head and runs it; `task()` never
propagates an exception into the worker loop. -/
inductive Step {α : Type} (run : ℕ → Except String α) :
    PoolState α → PoolState α → Prop
  | submitStep (s : PoolState α) : Step run s (submit s).1
  | shutdown (s : PoolState α) : Step run s (shutdownStep s)
  | workerRun (s : PoolState α) (t : ℕ) (rest : List ℕ)
      (hq : s.queue = t :: rest) (hw : 0 < s.liveWorkers) :
      Step run s
        { s with queue := rest
                 execOrder := s.execOrder ++ [t]
                 handles := fun i => if i = t then some (run t) else s.handles i }
  | workerExit (s : PoolState α)
      (hstop : s.stop = true) (hq : s.queue = []) (hw : 0 < s.liveWorkers) :
      Step run s { s with liveWorkers := s.liveWorkers - 1 }

/-- Finitely many steps. -/
def Reaches {α : Type} (run : ℕ → Except String α)
    (s s' : PoolState α) : Prop :=
  Relation.ReflTransGen (Step run) s s'

/-- Fine-grained state of the `ThreadPool`: like `PoolState`, but with the
dequeued-but-unresolved window made explicit.  `inFlight` holds the
identifiers a worker has popped under the mutex (lines
`task = std::move(tasks_.front()); tasks_.pop();`) but whose out-of-lock
execution `task()` — the point at which the future is resolved — has not
yet returned.  `execOrder` records identifiers in pop (dequeue) order. -/
structure FinePoolState (α : Type) where
  queue : List ℕ
  stop : Bool
  nextId : ℕ
  execOrder : List ℕ
  inFlight : List ℕ
  handles : ℕ → Option (Except String α)
  liveWorkers : ℕ

/-- One step of the system at the source's own granularity.  A worker that
is executing a task is busy, so at most `liveWorkers` identifiers are in
flight and only an idle worker (one of the `liveWorkers - inFlight.length`
at the condition-variable wait) can pop or exit; a worker can exit only by
observing `stop_ && tasks_.empty()` at the wait, never in the middle of
executing a task.  `workerPop` is the locked dequeue, `workerFinish` is the
return of the out-of-lock `task()` call, which resolves the task's own
future via `std::packaged_task`. -/
inductive FineStep {α : Type} (run : ℕ → Except String α) :
    FinePoolState α → FinePoolState α → Prop
  | submitStep (s : FinePoolState α) :
      FineStep run s { s with queue := s.queue ++ [s.nextId], nextId := s.nextId + 1 }
  | shutdown (s : FinePoolState α) : FineStep run s { s with stop := true }
  | workerPop (s : FinePoolState α) (t : ℕ) (rest : List ℕ)
      (hq : s.queue = t :: rest) (hw : s.inFlight.length < s.liveWorkers) :
      FineStep run s
        { s with queue := rest
                 execOrder := s.execOrder ++ [t]
                 inFlight := s.inFlight ++ [t] }
  | workerFinish (s : FinePoolState α) (t : ℕ) (ht : t ∈ s.inFlight) :
      FineStep run s
        { s with inFlight := s.inFlight.erase t
                 handles := fun i => if i = t then some (run t) else s.handles i }
  | workerExit (s : FinePoolState α)
      (hstop : s.stop = true) (hq : s.queue = [])
      (hw : s.inFlight.length < s.liveWorkers) :
      FineStep run s { s with liveWorkers := s.liveWorkers - 1 }

/-- Finitely many fine-grained steps. -/
def FineReaches {α : Type} (run : ℕ → Except String α)
    (s s' : FinePoolState α) : Prop :=
  Relation.ReflTransGen (FineStep run) s s'

/-- The state after a worker pops the queue head `t` and runs it (the
target of `Step.workerRun`), as a function: used to build explicit
drained schedules. -/
def popOne {α : Type} (run : ℕ → Except String α) (s : PoolState α)
    (t : ℕ) (rest : List ℕ) : PoolState α :=
  { s with queue := rest
           execOrder := s.execOrder ++ [t]
           handles := fun i => if i = t then some (run t) else s.handles i }

/-- Run the queue to exhaustion: workers pop and execute the listed tasks
head-first until the queue is empty. -/
def drainFrom {α : Type} (run : ℕ → Except String α) (s : PoolState α) :
    List ℕ → PoolState α
  | [] => s
  | t :: rest => drainFrom run (popOne run s t rest) rest

/-- Embedding of the `std::future` returned by `submit`, following the C++
standard semantics of the shared state: `pending` = not yet resolved,
`ready v` = resolved with outcome `v`, `consumed` = `get()` has already
released the shared state (`valid() == false`). -/
inductive FutureState (α : Type) where
  | pending : FutureState α
  | ready : α → FutureState α
  | consumed : FutureState α
deriving DecidableEq

/-- Embedding of `std::future::get` as used at `f.get()` in the source:
on a resolved future it returns the stored outcome and releases the shared
state, so the future is consumed afterwards; on a consumed future there is
no shared state left and no outcome is obtainable; on a pending future the
caller blocks, i.e. no outcome is available yet and the state is unchanged. -/
def FutureState.get {α : Type} : FutureState α → Option α × FutureState α
  | .pending => (none, .pending)
  | .ready v => (some v, .consumed)
  | .consumed => (none, .consumed)

/-- Behaviour of the `i`-th closure submitted by
`compute_parallel_thread_pool` (equally `ThreadPoolIntegrator::compute`):
`sub_xp = xp + i * sub_interval; sub_xk = sub_xp + sub_interval;
IntegralTask task(sub_xp, sub_xk, dx)` with
`sub_interval = (xk - xp) / tasks_number`.  `IntegralTask::compute` raises
no exception, so every outcome is `Except.ok`. -/
noncomputable def integralRun (xp xk dx : ℝ) (tasksNumber : ℕ) :
    ℕ → Except String ℝ :=
  fun i =>
    Except.ok
      ((IntegralTask.ofParams (xp + (i : ℝ) * ((xk - xp) / (tasksNumber : ℝ)))
          (xp + (i : ℝ) * ((xk - xp) / (tasksNumber : ℝ)) +
            (xk - xp) / (tasksNumber : ℝ)) dx).compute)

/-- The value delivered by an `f.get()` on a resolved handle (`0` when the
handle is unresolved or holds a failure; never the case in the integral
workload). -/
def handleValue : Option (Except String ℝ) → ℝ
  | some (Except.ok v) => v
  | _ => 0

/-- The summation loop `for (auto& f : futures) total_integral += f.get();`
of `compute_parallel_thread_pool`: handles are read in submission order
`0, …, tasksNumber - 1`. -/
noncomputable def poolTotal (s : PoolState ℝ) (tasksNumber : ℕ) : ℝ :=
  ∑ i in Finset.range tasksNumber, handleValue (s.handles i)

/-- The sequential reference: the in-submission-order sum of the
sub-interval tasks' `compute()` values (the value the claim states the
pool-based computation must equal). -/
noncomputable def sequentialTaskSum (xp xk dx : ℝ) (tasksNumber : ℕ) : ℝ :=
  ∑ i in Finset.range tasksNumber,
    (IntegralTask.ofParams (xp + (i : ℝ) * ((xk - xp) / (tasksNumber : ℝ)))
      (xp + (i : ℝ) * ((xk - xp) / (tasksNumber : ℝ)) +
        (xk - xp) / (tasksNumber : ℝ)) dx).compute

/-- Embedding of `AsyncIntegrator::compute`: each `std::async` future holds
its own task's `compute()` value, and the loop
`for (auto& f : futures) total_integral += f.get();` accumulates them
left-to-right in submission order. -/
noncomputable def asyncIntegratorCompute (xp xk dx : ℝ) (tasksNumber : ℕ) : ℝ :=
  (List.range tasksNumber).foldl
    (fun total (i : ℕ) =>
      total +
        (IntegralTask.ofParams (xp + (i : ℝ) * ((xk - xp) / (tasksNumber : ℝ)))
          (xp + (i : ℝ) * ((xk - xp) / (tasksNumber : ℝ)) +
            (xk - xp) / (tasksNumber : ℝ)) dx).compute)
    0

/-! Concrete runs and states used by the witnesses. -/

/-- Task behaviour for the graceful-shutdown scenarios: every task succeeds. -/
def f1Run : ℕ → Except String ℕ := fun i => Except.ok (i + 1)

/-- A one-worker pool with shutdown requested while task `0` is queued. -/
def f1S0 : FinePoolState ℕ :=
  { queue := [0], stop := true, nextId := 1, execOrder := [], inFlight := []
    handles := fun _ => none, liveWorkers := 1 }

/-- The worker pops task `0` (now in flight, unresolved). -/
def f1S1 : FinePoolState ℕ :=
  { f1S0 with queue := []
              execOrder := f1S0.execOrder ++ [0]
              inFlight := f1S0.inFlight ++ [0] }

/-- The worker finishes task `0`, resolving its handle. -/
def f1S2 : FinePoolState ℕ :=
  { f1S1 with inFlight := f1S1.inFlight.erase 0
              handles := fun i => if i = 0 then some (f1Run 0) else f1S1.handles i }

/-- The worker observes stop-and-empty and exits. -/
def f1S3 : FinePoolState ℕ := { f1S2 with liveWorkers := f1S2.liveWorkers - 1 }

/-- Task behaviour for the early-exit counterexample trace. -/
def f2Run : ℕ → Except String ℕ := fun i => Except.ok (i + 5)

/-- A two-worker pool with shutdown requested while tasks `0`, `1` are
queued. -/
def f2S0 : FinePoolState ℕ :=
  { queue := [0, 1], stop := true, nextId := 2, execOrder := [], inFlight := []
    handles := fun _ => none, liveWorkers := 2 }

/-- Worker A pops task `0`. -/
def f2S1 : FinePoolState ℕ :=
  { f2S0 with queue := [1]
              execOrder := f2S0.execOrder ++ [0]
              inFlight := f2S0.inFlight ++ [0] }

/-- Worker A finishes task `0`. -/
def f2S2 : FinePoolState ℕ :=
  { f2S1 with inFlight := f2S1.inFlight.erase 0
              handles := fun i => if i = 0 then some (f2Run 0) else f2S1.handles i }

/-- Worker A pops task `1` and starts executing it. -/
def f2S3 : FinePoolState ℕ :=
  { f2S2 with queue := []
              execOrder := f2S2.execOrder ++ [1]
              inFlight := f2S2.inFlight ++ [1] }

/-- Worker B observes stop-and-empty and exits while task `1` is still in
flight with an unresolved handle. -/
def f2S4 : FinePoolState ℕ := { f2S3 with liveWorkers := f2S3.liveWorkers - 1 }

/-- Task behaviour for the FIFO scenario. -/
def c3Run : ℕ → Except String ℕ := fun i => Except.ok (i + 10)

/-- Two tasks submitted to a one-worker pool. -/
def c3S0 : PoolState ℕ := submitN (mkPool 1 ℕ) 2

/-- The single worker runs task `0` first. -/
def c3S1 : PoolState ℕ :=
  { c3S0 with queue := [1]
              execOrder := c3S0.execOrder ++ [0]
              handles := fun i => if i = 0 then some (c3Run 0) else c3S0.handles i }

/-- The single worker runs task `1` second. -/
def c3S2 : PoolState ℕ :=
  { c3S1 with queue := []
              execOrder := c3S1.execOrder ++ [1]
              handles := fun i => if i = 1 then some (c3Run 1) else c3S1.handles i }

/-- Task behaviour for the exactly-once scenario. -/
def c4Run : ℕ → Except String ℕ := fun i => Except.ok (2 * i)

/-- Two tasks submitted to a two-worker pool. -/
def c4S0 : PoolState ℕ := submitN (mkPool 2 ℕ) 2

/-- One worker pops task `0`. -/
def c4S1 : PoolState ℕ :=
  { c4S0 with queue := [1]
              execOrder := c4S0.execOrder ++ [0]
              handles := fun i => if i = 0 then some (c4Run 0) else c4S0.handles i }

/-- The other worker pops task `1`. -/
def c4S2 : PoolState ℕ :=
  { c4S1 with queue := []
              execOrder := c4S1.execOrder ++ [1]
              handles := fun i => if i = 1 then some (c4Run 1) else c4S1.handles i }

/-- Task behaviour for the failure-isolation scenario: task `0` raises. -/
def c5Run : ℕ → Except String ℕ :=
  fun i => if i = 0 then Except.error "boom" else Except.ok i

/-- A running one-worker pool with the failing task `0` at the queue head
and the healthy task `1` behind it. -/
def c5S : PoolState ℕ :=
  { queue := [0, 1], stop := false, nextId := 2, execOrder := []
    handles := fun _ => none, liveWorkers := 1 }

/-- Task behaviour of the refinement witness: one sub-interval of `[0, 1]`
with step `1`. -/
noncomputable def c9Run : ℕ → Except String ℝ := integralRun 0 1 1 1

/-- One integral task submitted to a one-worker pool. -/
noncomputable def c9S0 : PoolState ℝ := submitN (mkPool 1 ℝ) 1

/-- The worker has run the single integral task; the queue is drained. -/
noncomputable def c9S1 : PoolState ℝ :=
  { c9S0 with queue := []
              execOrder := c9S0.execOrder ++ [0]
              handles := fun i => if i = 0 then some (c9Run 0) else c9S0.handles i }

/-- Task behaviour of the numerical round-trip: the 30 sub-interval tasks
of `[0, π]` with step `1e-5` submitted by `main` /
`compute_parallel_thread_pool`. -/
noncomputable def c8Run : ℕ → Except String ℝ :=
  integralRun 0 Real.pi (1e-5 : ℝ) 30

/-- The 30 round-trip tasks submitted to a one-worker pool. -/
noncomputable def c8S0 : PoolState ℝ := submitN (mkPool 1 ℝ) 30

/-- The worker has drained all 30 round-trip tasks. -/
noncomputable def c8S1 : PoolState ℝ := drainFrom c8Run c8S0 (List.range 30)

/-! General lemmas about the accumulation loops and the transition system. -/

/-- Left-to-right accumulation over `List.range n` starting from `0` agrees
with the `Finset.range` sum.  Used to reason about the `compute` loop and the
future-summation loops. -/
theorem foldl_add_range (f : ℕ → ℝ) (n : ℕ) :
    (List.range n).foldl (fun a i => a + f i) 0 = ∑ i in Finset.range n, f i := by
  induction n with
  | zero => simp
  | succ n ih =>
    rw [List.range_succ, List.foldl_append, ih, Finset.sum_range_succ]
    simp

section Invariants

variable {α : Type} {run : ℕ → Except String α}

/-- Core bookkeeping invariant: the identifiers executed so far followed by
the identifiers still queued are exactly `0, 1, …, nextId - 1` in submission
order.  `submit` appends a fresh identifier at the tail and a worker pops the
head, so the concatenation is preserved. -/
theorem exec_append_queue {w : ℤ} {s : PoolState α}
    (h : Reaches run (mkPool w α) s) :
    s.execOrder ++ s.queue = List.range s.nextId := by
  induction h with
  | refl => simp [mkPool]
  | tail hab hbc ih =>
      cases hbc with
      | submitStep =>
          simp only [submit, List.range_succ, ← ih]
          simp
      | shutdown => exact ih
      | workerRun t rest hq hw =>
          rw [hq] at ih
          simp only [← ih, List.append_assoc, List.singleton_append]
      | workerExit hstop hq hw => exact ih

/-- Handle invariant: handle `i` is resolved exactly when task `i` has been
executed, and then it holds that task's own outcome `run i`. -/
theorem handles_inv {w : ℤ} {s : PoolState α}
    (h : Reaches run (mkPool w α) s) :
    ∀ i, s.handles i = if i ∈ s.execOrder then some (run i) else none := by
  induction h with
  | refl => intro i; simp [mkPool]
  | tail hab hbc ih =>
      cases hbc with
      | submitStep => exact ih
      | shutdown => exact ih
      | workerRun t rest hq hw =>
          intro i
          by_cases hit : i = t
          · subst hit; simp
          · simpa [hit] using ih i
      | workerExit hstop hq hw => exact ih

/-- `nextId` never decreases. -/
theorem nextId_mono {s0 s : PoolState α} (h : Reaches run s0 s) :
    s0.nextId ≤ s.nextId := by
  induction h with
  | refl => exact le_refl _
  | tail hab hbc ih =>
      refine le_trans ih ?_
      cases hbc with
      | submitStep => exact Nat.le_succ _
      | shutdown => exact le_refl _
      | workerRun t rest hq hw => exact le_refl _
      | workerExit hstop hq hw => exact le_refl _

/-- After `n` submissions, `nextId` has advanced by `n`. -/
theorem submitN_nextId (s : PoolState α) (n : ℕ) :
    (submitN s n).nextId = s.nextId + n := by
  induction n with
  | zero => rfl
  | succ n ih => simp [submitN, submit, ih, Nat.add_assoc]

/-- `n` submissions form a valid run of the system. -/
theorem submitN_reaches (s : PoolState α) (n : ℕ) :
    Reaches run s (submitN s n) := by
  induction n with
  | zero => exact Relation.ReflTransGen.refl
  | succ n ih => exact Relation.ReflTransGen.tail ih (Step.submitStep _)

/-- After `n` submissions to a fresh pool the queue holds `0, …, n - 1`. -/
theorem submitN_queue (w : ℤ) (n : ℕ) :
    (submitN (mkPool w α) n).queue = List.range n := by
  induction n with
  | zero => rfl
  | succ n ih =>
      show (submitN (mkPool w α) n).queue ++ [(submitN (mkPool w α) n).nextId]
          = List.range (n + 1)
      rw [List.range_succ, ih, submitN_nextId]
      simp [mkPool]

/-- Submissions do not change the worker count. -/
theorem submitN_liveWorkers (s : PoolState α) (n : ℕ) :
    (submitN s n).liveWorkers = s.liveWorkers := by
  induction n with
  | zero => rfl
  | succ n ih => exact ih

/-- From any state with at least one worker, the queue can be run to
exhaustion: the drained state is reachable and has an empty queue. -/
theorem drainFrom_reaches (run : ℕ → Except String α) :
    ∀ (l : List ℕ) (s : PoolState α), s.queue = l → 0 < s.liveWorkers →
      Reaches run s (drainFrom run s l) ∧ (drainFrom run s l).queue = [] := by
  intro l
  induction l with
  | nil =>
      intro s hq hw
      exact ⟨Relation.ReflTransGen.refl, hq⟩
  | cons t rest ih =>
      intro s hq hw
      have hstep : Step run s (popOne run s t rest) := Step.workerRun s t rest hq hw
      have h2 := ih (popOne run s t rest) rfl hw
      exact ⟨Relation.ReflTransGen.head hstep h2.1, h2.2⟩

end Invariants

section FineInvariants

variable {α : Type} {run : ℕ → Except String α}

/-- In the fine-grained system, the only step that lowers the live-worker
count is a worker returning from its loop, and that requires the stop flag
set and the queue empty: a worker never exits while the queue is
non-empty. -/
theorem fine_exit_requires_stop_and_empty {s s' : FinePoolState α}
    (h : FineStep run s s') (hdec : s'.liveWorkers < s.liveWorkers) :
    s.stop = true ∧ s.queue = [] := by
  cases h with
  | submitStep => exact absurd hdec (lt_irrefl _)
  | shutdown => exact absurd hdec (lt_irrefl _)
  | workerPop t rest hq hw => exact absurd hdec (lt_irrefl _)
  | workerFinish t ht => exact absurd hdec (lt_irrefl _)
  | workerExit hstop hq hw => exact ⟨hstop, hq⟩

/-- Each live worker executes at most one task at a time, so the number of
in-flight tasks never exceeds the number of live workers. -/
theorem fineStep_inFlight_bound {s s' : FinePoolState α}
    (h : FineStep run s s') (hb : s.inFlight.length ≤ s.liveWorkers) :
    s'.inFlight.length ≤ s'.liveWorkers := by
  cases h with
  | submitStep => exact hb
  | shutdown => exact hb
  | workerPop t rest hq hw =>
      simpa [List.length_append] using hw
  | workerFinish t ht =>
      exact le_trans (List.length_erase_le _ _) hb
  | workerExit hstop hq hw =>
      show s.inFlight.length ≤ s.liveWorkers - 1
      omega

/-- The in-flight bound holds along every run. -/
theorem fineReaches_inFlight_bound {s0 s : FinePoolState α}
    (h : FineReaches run s0 s) (hb : s0.inFlight.length ≤ s0.liveWorkers) :
    s.inFlight.length ≤ s.liveWorkers := by
  induction h with
  | refl => exact hb
  | tail hab hbc ih => exact fineStep_inFlight_bound hbc ih

/-- Tracking a task across one fine step: a task that is queued (while some
worker is live), in flight, or already resolved with its own outcome stays
in one of these three stages.  A queued task can only leave the queue by
being popped into flight, an in-flight task only by being finished — which
resolves its handle — and a resolved handle is never overwritten with a
different value. -/
theorem fineStep_track {s s' : FinePoolState α} (h : FineStep run s s')
    {t : ℕ}
    (ht : (t ∈ s.queue ∧ 0 < s.liveWorkers) ∨ t ∈ s.inFlight ∨
      s.handles t = some (run t)) :
    (t ∈ s'.queue ∧ 0 < s'.liveWorkers) ∨ t ∈ s'.inFlight ∨
      s'.handles t = some (run t) := by
  cases h with
  | submitStep =>
      rcases ht with ⟨h1, h2⟩ | h1 | h1
      · exact Or.inl ⟨List.mem_append_left _ h1, h2⟩
      · exact Or.inr (Or.inl h1)
      · exact Or.inr (Or.inr h1)
  | shutdown => exact ht
  | workerPop u rest hq hw =>
      rcases ht with ⟨h1, h2⟩ | h1 | h1
      · rw [hq] at h1
        rcases List.mem_cons.mp h1 with h3 | h3
        · subst h3
          exact Or.inr (Or.inl (List.mem_append_right _ (List.mem_singleton_self t)))
        · exact Or.inl ⟨h3, h2⟩
      · exact Or.inr (Or.inl (List.mem_append_left _ h1))
      · exact Or.inr (Or.inr h1)
  | workerFinish u hu =>
      rcases ht with ⟨h1, h2⟩ | h1 | h1
      · exact Or.inl ⟨h1, h2⟩
      · by_cases htu : t = u
        · subst htu
          exact Or.inr (Or.inr (by simp))
        · exact Or.inr (Or.inl (by
            show t ∈ s.inFlight.erase u
            exact (List.mem_erase_of_ne htu).mpr h1))
      · by_cases htu : t = u
        · subst htu
          exact Or.inr (Or.inr (by simp))
        · exact Or.inr (Or.inr (by simpa [htu] using h1))
  | workerExit hstop hq hw =>
      rcases ht with ⟨h1, h2⟩ | h1 | h1
      · rw [hq] at h1
        exact absurd h1 (List.not_mem_nil t)
      · exact Or.inr (Or.inl h1)
      · exact Or.inr (Or.inr h1)

/-- Tracking a task along a whole fine run. -/
theorem fineReaches_track {s0 s : FinePoolState α} (h : FineReaches run s0 s)
    {t : ℕ}
    (ht : (t ∈ s0.queue ∧ 0 < s0.liveWorkers) ∨ t ∈ s0.inFlight ∨
      s0.handles t = some (run t)) :
    (t ∈ s.queue ∧ 0 < s.liveWorkers) ∨ t ∈ s.inFlight ∨
      s.handles t = some (run t) := by
  induction h with
  | refl => exact ht
  | tail hab hbc ih => exact fineStep_track hbc ih

end FineInvariants

/-! Grid alignment of the numerical round-trip scenario, over the
real-number embedding: with step `1e-5`, the whole interval `[0, π]` is
split into `⌈π / 1e-5⌉ = 314160` panels of adjusted width `π / 314160`,
and each of the 30 sub-intervals of length `π / 30` into
`⌈(π / 30) / 1e-5⌉ = 10472` panels of adjusted width
`(π / 30) / 10472 = π / 314160`.  Since `314160 = 30 * 10472`, the 30
sub-interval grids concatenate to exactly the whole-interval grid, so the
sums coincide term by term. -/

/-- The `compute` loop as a `Finset.range` sum of its trapezoid terms. -/
theorem compute_eq_sum (t : IntegralTask) :
    t.compute = ∑ i in Finset.range t.N_.toNat, t.trapTerm i :=
  foldl_add_range _ _

/-- Splitting a sum over `range (a * b)` into `a` blocks of `b` terms. -/
theorem sum_range_grouped (f : ℕ → ℝ) (a b : ℕ) :
    ∑ j in Finset.range a, ∑ i in Finset.range b, f (j * b + i)
      = ∑ k in Finset.range (a * b), f k := by
  induction a with
  | zero => simp
  | succ a ih =>
      rw [Finset.sum_range_succ, ih, add_mul, one_mul, Finset.sum_range_add]

/-- `⌈(π / 30) / 1e-5⌉ = 10472`: each sub-interval task gets 10472 panels. -/
theorem ceil_sub_step : ⌈Real.pi / 30 / (1e-5 : ℝ)⌉ = (10472 : ℤ) := by
  have hp1 := Real.pi_gt_d6
  have hp2 := Real.pi_lt_d6
  rw [Int.ceil_eq_iff]
  constructor
  · rw [div_div, lt_div_iff₀ (by norm_num : (0 : ℝ) < 30 * (1e-5 : ℝ))]
    push_cast
    nlinarith
  · rw [div_div, div_le_iff₀ (by norm_num : (0 : ℝ) < 30 * (1e-5 : ℝ))]
    push_cast
    nlinarith

/-- `⌈π / 1e-5⌉ = 314160`: the whole-interval task gets 314160 panels. -/
theorem ceil_whole_step : ⌈Real.pi / (1e-5 : ℝ)⌉ = (314160 : ℤ) := by
  have hp1 := Real.pi_gt_d6
  have hp2 := Real.pi_lt_d6
  rw [Int.ceil_eq_iff]
  constructor
  · rw [lt_div_iff₀ (by norm_num : (0 : ℝ) < (1e-5 : ℝ))]
    push_cast
    nlinarith
  · rw [div_le_iff₀ (by norm_num : (0 : ℝ) < (1e-5 : ℝ))]
    push_cast
    nlinarith

/-- Panel count of the whole-interval task `IntegralTask(0, π, 1e-5)`. -/
theorem whole_task_N :
    (IntegralTask.ofParams 0 Real.pi (1e-5 : ℝ)).N_ = (314160 : ℤ) := by
  show ⌈(Real.pi - 0) / (1e-5 : ℝ)⌉ = (314160 : ℤ)
  rw [sub_zero]
  exact ceil_whole_step

/-- Adjusted step of the whole-interval task. -/
theorem whole_task_dx :
    (IntegralTask.ofParams 0 Real.pi (1e-5 : ℝ)).dx_ = Real.pi / 314160 := by
  show (Real.pi - 0) / ((⌈(Real.pi - 0) / (1e-5 : ℝ)⌉ : ℤ) : ℝ) = Real.pi / 314160
  rw [sub_zero, ceil_whole_step]
  norm_num

/-- The `j`-th sub-interval task's `compute` is the block of the
whole-interval task's trapezoid terms with indices
`j * 10472, …, j * 10472 + 10471`: the sub-grid has the same adjusted step
`π / 314160`, and its origin `j * (π / 30)` is grid point `j * 10472`. -/
theorem sub_task_compute (j : ℕ) :
    (IntegralTask.ofParams (0 + (j : ℝ) * ((Real.pi - 0) / ((30 : ℕ) : ℝ)))
        (0 + (j : ℝ) * ((Real.pi - 0) / ((30 : ℕ) : ℝ)) +
          (Real.pi - 0) / ((30 : ℕ) : ℝ)) (1e-5 : ℝ)).compute
      = ∑ i in Finset.range 10472,
          (IntegralTask.ofParams 0 Real.pi (1e-5 : ℝ)).trapTerm (j * 10472 + i) := by
  have e : (0 + (j : ℝ) * ((Real.pi - 0) / ((30 : ℕ) : ℝ)) +
        (Real.pi - 0) / ((30 : ℕ) : ℝ))
      - (0 + (j : ℝ) * ((Real.pi - 0) / ((30 : ℕ) : ℝ))) = Real.pi / 30 := by
    push_cast
    ring
  have hTN : (IntegralTask.ofParams (0 + (j : ℝ) * ((Real.pi - 0) / ((30 : ℕ) : ℝ)))
      (0 + (j : ℝ) * ((Real.pi - 0) / ((30 : ℕ) : ℝ)) +
        (Real.pi - 0) / ((30 : ℕ) : ℝ)) (1e-5 : ℝ)).N_ = (10472 : ℤ) := by
    show ⌈((0 + (j : ℝ) * ((Real.pi - 0) / ((30 : ℕ) : ℝ)) +
        (Real.pi - 0) / ((30 : ℕ) : ℝ))
        - (0 + (j : ℝ) * ((Real.pi - 0) / ((30 : ℕ) : ℝ)))) / (1e-5 : ℝ)⌉ = (10472 : ℤ)
    rw [e]
    exact ceil_sub_step
  have hTdx : (IntegralTask.ofParams (0 + (j : ℝ) * ((Real.pi - 0) / ((30 : ℕ) : ℝ)))
      (0 + (j : ℝ) * ((Real.pi - 0) / ((30 : ℕ) : ℝ)) +
        (Real.pi - 0) / ((30 : ℕ) : ℝ)) (1e-5 : ℝ)).dx_ = Real.pi / 314160 := by
    show ((0 + (j : ℝ) * ((Real.pi - 0) / ((30 : ℕ) : ℝ)) +
        (Real.pi - 0) / ((30 : ℕ) : ℝ))
        - (0 + (j : ℝ) * ((Real.pi - 0) / ((30 : ℕ) : ℝ))))
        / ((⌈((0 + (j : ℝ) * ((Real.pi - 0) / ((30 : ℕ) : ℝ)) +
            (Real.pi - 0) / ((30 : ℕ) : ℝ))
            - (0 + (j : ℝ) * ((Real.pi - 0) / ((30 : ℕ) : ℝ)))) / (1e-5 : ℝ)⌉ : ℤ) : ℝ)
        = Real.pi / 314160
    rw [e, ceil_sub_step]
    rw [div_div]
    norm_num
  rw [compute_eq_sum, hTN]
  rw [show ((10472 : ℤ)).toNat = 10472 from rfl]
  apply Finset.sum_congr rfl
  intro i _
  simp only [IntegralTask.trapTerm]
  rw [hTdx, whole_task_dx]
  rw [show (IntegralTask.ofParams (0 + (j : ℝ) * ((Real.pi - 0) / ((30 : ℕ) : ℝ)))
      (0 + (j : ℝ) * ((Real.pi - 0) / ((30 : ℕ) : ℝ)) +
        (Real.pi - 0) / ((30 : ℕ) : ℝ)) (1e-5 : ℝ)).xp_
      = 0 + (j : ℝ) * ((Real.pi - 0) / ((30 : ℕ) : ℝ)) from rfl]
  rw [show (IntegralTask.ofParams 0 Real.pi (1e-5 : ℝ)).xp_ = (0 : ℝ) from rfl]
  rw [show 0 + (j : ℝ) * ((Real.pi - 0) / ((30 : ℕ) : ℝ)) +
      (i : ℝ) * (Real.pi / 314160)
      = 0 + ((j * 10472 + i : ℕ) : ℝ) * (Real.pi / 314160) from by push_cast; ring]

/-- The 30 sub-interval tasks sum, in submission order, to exactly the
whole-interval task's `compute` — the grids align perfectly. -/
theorem subSum_eq_wholeCompute :
    sequentialTaskSum 0 Real.pi (1e-5 : ℝ) 30
      = (IntegralTask.ofParams 0 Real.pi (1e-5 : ℝ)).compute := by
  rw [compute_eq_sum, whole_task_N]
  rw [show ((314160 : ℤ)).toNat = 314160 from rfl]
  rw [show (314160 : ℕ) = 30 * 10472 from by norm_num]
  rw [← sum_range_grouped]
  unfold sequentialTaskSum
  exact Finset.sum_congr rfl fun j _ => sub_task_compute j

/-- For any worker count and any complete pool schedule, the handle sum in
submission order equals the sequential reference sum (the first half of
the refinement argument, shared by the refinement and round-trip claims). -/
theorem poolTotal_eq_sequentialTaskSum (xp xk dx : ℝ) (w : ℤ) (n : ℕ)
    (s : PoolState ℝ)
    (h : Reaches (integralRun xp xk dx n) (submitN (mkPool w ℝ) n) s)
    (hq : s.queue = []) :
    poolTotal s n = sequentialTaskSum xp xk dx n := by
  have hreach : Reaches (integralRun xp xk dx n) (mkPool w ℝ) s :=
    Relation.ReflTransGen.trans (submitN_reaches _ n) h
  have hinv := exec_append_queue hreach
  have hh := handles_inv hreach
  have hn : n ≤ s.nextId := by
    have hmono := nextId_mono h
    rw [submitN_nextId] at hmono
    simpa [mkPool] using hmono
  rw [hq, List.append_nil] at hinv
  unfold poolTotal sequentialTaskSum
  apply Finset.sum_congr rfl
  intro i hi
  have hin : i ∈ s.execOrder := by
    rw [hinv, List.mem_range]
    exact lt_of_lt_of_le (Finset.mem_range.mp hi) hn
  rw [hh i, if_pos hin]
  rfl

/-! Claim theorems. -/

/-- C1 (counterexample).  `ThreadPool::submit` contains no check of the stop
flag: on a pool whose shutdown has begun (`stop = true`), `submit` still
appends the task to the queue instead of rejecting it. -/
theorem submit_after_shutdown_enqueues_cex :
    (shutdownStep (mkPool 1 ℕ)).stop = true ∧
      ((submit (shutdownStep (mkPool 1 ℕ))).1).queue = [0] := by
  decide

/-- C1 (amended).  `submit` never rejects: in every pool state — Running or
with shutdown begun — it appends the task at the queue tail, leaves the stop
flag unchanged, allocates the next identifier, and returns its handle.
There is no `RejectedSubmission` path in the code. -/
theorem submit_always_enqueues {α : Type} (s : PoolState α) :
    ((submit s).1).queue = s.queue ++ [s.nextId] ∧
      ((submit s).1).stop = s.stop ∧
      ((submit s).1).nextId = s.nextId + 1 ∧
      (submit s).2 = s.nextId :=
  ⟨rfl, rfl, rfl, rfl⟩

/-- C2 (counterexample).  At the source's own granularity there is a valid
program trace on a two-worker pool, shutdown requested while tasks `0` and
`1` are queued, in which worker A is still executing the popped task `1`
(its handle unresolved) when worker B observes `stop_ && tasks_.empty()`
and terminates: a queued task's handle need not resolve before *some*
worker terminates. -/
theorem worker_exits_before_resolution_cex :
    f2S0.stop = true ∧ (1 : ℕ) ∈ f2S0.queue ∧
      FineReaches f2Run f2S0 f2S4 ∧
      f2S4.liveWorkers < f2S0.liveWorkers ∧
      1 ∈ f2S4.execOrder ∧ 1 ∈ f2S4.inFlight ∧
      f2S4.handles 1 = none :=
  ⟨rfl, by decide,
    Relation.ReflTransGen.head (FineStep.workerPop f2S0 0 [1] rfl (by decide))
      (Relation.ReflTransGen.head (FineStep.workerFinish f2S1 0 (by decide))
        (Relation.ReflTransGen.head (FineStep.workerPop f2S2 1 [] rfl (by decide))
          (Relation.ReflTransGen.single
            (FineStep.workerExit f2S3 rfl rfl (by decide))))),
    by decide, by decide, by decide, rfl⟩

/-- C2 (amended).  A worker exits its loop only when the stop flag is set
AND the queue is empty, never while the queue is non-empty; and, provided
some worker is still live when shutdown is requested with Q tasks queued,
every one of those Q tasks is dequeued and executed and its handle resolves
before ALL workers terminate: once the live-worker count reaches zero, no
task is still in flight and every previously queued task's handle is
resolved with its own outcome. -/
theorem shutdown_drains_before_all_workers_exit {α : Type}
    (run : ℕ → Except String α) (s0 s : FinePoolState α)
    (h0 : FineReaches run s0 s)
    (hb : s0.inFlight.length ≤ s0.liveWorkers)
    (hlw : 0 < s0.liveWorkers) :
    (∀ s', FineStep run s s' → s'.liveWorkers < s.liveWorkers →
        s.stop = true ∧ s.queue = []) ∧
      (s.liveWorkers = 0 →
        s.inFlight = [] ∧ ∀ t ∈ s0.queue, s.handles t = some (run t)) := by
  refine ⟨fun s' hs hdec => fine_exit_requires_stop_and_empty hs hdec, fun hz => ?_⟩
  have hb' : s.inFlight.length ≤ s.liveWorkers := fineReaches_inFlight_bound h0 hb
  have hfl : s.inFlight = [] := by
    cases hif : s.inFlight with
    | nil => rfl
    | cons a l =>
        rw [hif] at hb'
        rw [hz] at hb'
        simp at hb'
  refine ⟨hfl, fun t ht => ?_⟩
  rcases fineReaches_track h0 (Or.inl ⟨ht, hlw⟩) with ⟨h1, h2⟩ | h1 | h1
  · rw [hz] at h2
    exact absurd h2 (lt_irrefl 0)
  · rw [hfl] at h1
    exact absurd h1 (List.not_mem_nil t)
  · exact h1

/-- Witness for C2 (amended): a one-worker pool with shutdown requested and
task `0` queued pops, finishes and resolves the task, then exits; at the
all-exited state nothing is in flight and the handle is resolved. -/
theorem shutdown_drains_before_all_workers_exit_witness :
    (∀ s', FineStep f1Run f1S3 s' → s'.liveWorkers < f1S3.liveWorkers →
        f1S3.stop = true ∧ f1S3.queue = []) ∧
      (f1S3.liveWorkers = 0 →
        f1S3.inFlight = [] ∧ ∀ t ∈ f1S0.queue, f1S3.handles t = some (f1Run t)) :=
  shutdown_drains_before_all_workers_exit f1Run f1S0 f1S3
    (Relation.ReflTransGen.head (FineStep.workerPop f1S0 0 [] rfl (by decide))
      (Relation.ReflTransGen.head (FineStep.workerFinish f1S1 0 (by decide))
        (Relation.ReflTransGen.single
          (FineStep.workerExit f1S2 rfl rfl (by decide)))))
    (by decide) (by decide)

/-- C3.  The queue is strictly FIFO — `submit` appends at the tail, a worker
pops the head — so on a single-worker pool the executed identifiers are
exactly `0, 1, …` in submission order, with no reordering or priority. -/
theorem fifo_single_worker_order {α : Type} (run : ℕ → Except String α)
    (s : PoolState α) (h : Reaches run (mkPool 1 α) s) :
    s.execOrder ++ s.queue = List.range s.nextId ∧
      s.execOrder = List.range s.execOrder.length := by
  have hinv := exec_append_queue h
  refine ⟨hinv, ?_⟩
  have hlen : s.execOrder.length ≤ s.nextId := by
    have hcongr := congrArg List.length hinv
    simp only [List.length_append, List.length_range] at hcongr
    omega
  calc s.execOrder
      = (s.execOrder ++ s.queue).take s.execOrder.length := (List.take_left _ _).symm
    _ = (List.range s.nextId).take s.execOrder.length := by rw [hinv]
    _ = List.range s.execOrder.length := by
        rw [List.take_range, Nat.min_eq_left hlen]

/-- Witness for C3: tasks `0` and `1` submitted to a one-worker pool are
executed in submission order. -/
theorem fifo_single_worker_order_witness :
    c3S2.execOrder ++ c3S2.queue = List.range c3S2.nextId ∧
      c3S2.execOrder = List.range c3S2.execOrder.length :=
  fifo_single_worker_order c3Run c3S2
    (Relation.ReflTransGen.tail
      (Relation.ReflTransGen.tail (@submitN_reaches ℕ c3Run (mkPool 1 ℕ) 2)
        (Step.workerRun c3S0 0 [1] rfl (by decide)))
      (Step.workerRun c3S1 1 [] rfl (by decide)))

/-- C4.  For any worker count: no task is ever executed twice (the executed
identifiers are pairwise distinct), a handle is resolved exactly when its
task has been executed — and then exactly once, with that task's own
outcome — and once the queue is drained every submitted task has been
executed exactly once. -/
theorem task_executed_exactly_once {α : Type} (run : ℕ → Except String α)
    (w : ℤ) (s : PoolState α) (h : Reaches run (mkPool w α) s) :
    s.execOrder.Nodup ∧
      (∀ i, s.handles i = if i ∈ s.execOrder then some (run i) else none) ∧
      (s.queue = [] → s.execOrder = List.range s.nextId) := by
  have hinv := exec_append_queue h
  refine ⟨?_, handles_inv h, fun hq => ?_⟩
  · have hnd : (s.execOrder ++ s.queue).Nodup := by
      rw [hinv]; exact List.nodup_range s.nextId
    exact hnd.of_append_left
  · rw [hq, List.append_nil] at hinv
    exact hinv

/-- Witness for C4: two tasks on a two-worker pool, each executed once. -/
theorem task_executed_exactly_once_witness :
    c4S2.execOrder.Nodup ∧
      (∀ i, c4S2.handles i = if i ∈ c4S2.execOrder then some (c4Run i) else none) ∧
      (c4S2.queue = [] → c4S2.execOrder = List.range c4S2.nextId) :=
  task_executed_exactly_once c4Run 2 c4S2
    (Relation.ReflTransGen.tail
      (Relation.ReflTransGen.tail (@submitN_reaches ℕ c4Run (mkPool 2 ℕ) 2)
        (Step.workerRun c4S0 0 [1] rfl (by decide)))
      (Step.workerRun c4S1 1 [] rfl (by decide)))

/-- C5.  A task whose callable raises: the worker's step stores the captured
failure in that task's own handle, removes only that task from the queue,
leaves every other handle and the worker count unchanged, and the worker can
immediately dequeue the next task, which resolves with its own outcome. -/
theorem task_failure_isolated {α : Type} (run : ℕ → Except String α)
    (s : PoolState α) (t : ℕ) (rest : List ℕ) (e : String)
    (hq : s.queue = t :: rest) (hw : 0 < s.liveWorkers)
    (he : run t = Except.error e) :
    ∃ s', Step run s s' ∧
      s'.handles t = some (Except.error e) ∧
      s'.queue = rest ∧
      s'.liveWorkers = s.liveWorkers ∧
      s'.stop = s.stop ∧
      (∀ i, i ≠ t → s'.handles i = s.handles i) ∧
      s'.execOrder = s.execOrder ++ [t] ∧
      ∀ u rest2, rest = u :: rest2 →
        ∃ s2, Step run s' s2 ∧ s2.handles u = some (run u) := by
  refine ⟨_, Step.workerRun s t rest hq hw, ?_, rfl, rfl, rfl, ?_, rfl, ?_⟩
  · simp [he]
  · intro i hit
    simp [hit]
  · intro u rest2 hrest
    refine ⟨_, Step.workerRun _ u rest2 (by simpa using hrest) (by simpa using hw), ?_⟩
    simp

/-- Witness for C5: task `0` raises, task `1` behind it still resolves. -/
theorem task_failure_isolated_witness :
    ∃ s', Step c5Run c5S s' ∧
      s'.handles 0 = some (Except.error "boom") ∧
      s'.queue = [1] ∧
      s'.liveWorkers = c5S.liveWorkers ∧
      s'.stop = c5S.stop ∧
      (∀ i, i ≠ 0 → s'.handles i = c5S.handles i) ∧
      s'.execOrder = c5S.execOrder ++ [0] ∧
      ∀ u rest2, ([1] : List ℕ) = u :: rest2 →
        ∃ s2, Step c5Run s' s2 ∧ s2.handles u = some (c5Run u) :=
  task_failure_isolated c5Run c5S 0 [1] "boom" rfl (by decide) rfl

/-- C6 (counterexample).  The constructor loop
`for (int i = 0; i < threads; ++i)` silently accepts a worker count of `0`
(and of `-3`): construction succeeds, yielding a running pool with zero
workers that even accepts submissions — no configuration error exists. -/
theorem zero_worker_count_accepted_cex :
    (mkPool 0 ℕ).stop = false ∧
      (mkPool 0 ℕ).liveWorkers = 0 ∧
      ((submit (mkPool 0 ℕ)).1).queue = [0] ∧
      (mkPool (-3) ℕ).liveWorkers = 0 := by
  decide

/-- C6 (amended).  Construction never fails: for every worker count the
constructor returns a running pool with an empty queue, spawning exactly
`worker_count` workers when `worker_count ≥ 1` and zero workers when
`worker_count ≤ 0` (the spawn loop body never runs; the invalid count is
silently accepted). -/
theorem pool_construction_total (α : Type) (w : ℤ) :
    (mkPool w α).liveWorkers = w.toNat ∧
      (mkPool w α).stop = false ∧
      (mkPool w α).queue = [] ∧
      (1 ≤ w → ((mkPool w α).liveWorkers : ℤ) = w) ∧
      (w ≤ 0 → (mkPool w α).liveWorkers = 0) := by
  refine ⟨rfl, rfl, rfl, fun h1 => ?_, fun h0 => ?_⟩
  · simp only [mkPool]
    exact Int.toNat_of_nonneg (le_trans zero_le_one h1)
  · simp only [mkPool]
    exact Int.toNat_eq_zero.mpr h0

/-- Witness for C6 (amended): three requested workers yield three workers. -/
theorem pool_construction_total_witness :
    ((mkPool 3 ℕ).liveWorkers : ℤ) = 3 :=
  (pool_construction_total ℕ 3).2.2.2.1 (by norm_num)

/-- C7 (counterexample).  The handle returned by `submit` is a
`std::future`, whose `get` releases the shared state: after a first read of
a resolved handle returns the outcome, a second read of the same handle no
longer observes it — reads of a resolved handle are not idempotent. -/
theorem future_double_read_cex :
    ((FutureState.ready (7 : ℕ)).get.1 = some 7) ∧
      ((FutureState.ready (7 : ℕ)).get.2.get.1 ≠ some 7) := by
  decide

/-- C7 (amended).  A resolved handle may be read exactly once: the single
read observes the resolved outcome and consumes the handle
(`std::future::get` invalidates it), a further read observes no outcome,
and a read before resolution obtains no outcome yet (the caller blocks). -/
theorem future_single_read {α : Type} (v : α) :
    (FutureState.ready v).get = (some v, FutureState.consumed) ∧
      (FutureState.consumed : FutureState α).get = (none, FutureState.consumed) ∧
      (FutureState.pending : FutureState α).get = (none, FutureState.pending) :=
  ⟨rfl, rfl, rfl⟩

/-- C8.  Numerical round-trip, over the real-number embedding of the
`double` arithmetic: submitting the 30 sub-interval trapezoid tasks of
`[0, π]` with step `1e-5` to the pool (any worker count) and summing the
30 handle values in submission order yields a total within relative
tolerance `1e-6` of the single-threaded whole-interval computation
`IntegralTask(0, π, 1e-5).compute()` — in fact the two agree exactly,
because `⌈π/1e-5⌉ = 314160 = 30 · ⌈(π/30)/1e-5⌉` makes the 30 sub-grids
concatenate to precisely the whole-interval grid. -/
theorem numerical_roundtrip (w : ℤ) (s : PoolState ℝ)
    (h : Reaches (integralRun 0 Real.pi (1e-5 : ℝ) 30) (submitN (mkPool w ℝ) 30) s)
    (hq : s.queue = []) :
    |poolTotal s 30 - (IntegralTask.ofParams 0 Real.pi (1e-5 : ℝ)).compute|
      ≤ (1e-6 : ℝ) * |(IntegralTask.ofParams 0 Real.pi (1e-5 : ℝ)).compute| := by
  rw [poolTotal_eq_sequentialTaskSum 0 Real.pi (1e-5 : ℝ) w 30 s h hq,
    subSum_eq_wholeCompute, sub_self, abs_zero]
  positivity

/-- Witness for C8: the 30 round-trip tasks drained on a one-worker pool. -/
theorem numerical_roundtrip_witness :
    |poolTotal c8S1 30 - (IntegralTask.ofParams 0 Real.pi (1e-5 : ℝ)).compute|
      ≤ (1e-6 : ℝ) * |(IntegralTask.ofParams 0 Real.pi (1e-5 : ℝ)).compute| :=
  numerical_roundtrip 1 c8S1
    (drainFrom_reaches c8Run (List.range 30) c8S0 (submitN_queue 1 30) (by decide)).1
    (drainFrom_reaches c8Run (List.range 30) c8S0 (submitN_queue 1 30) (by decide)).2

/-- C9.  Refinement: for any worker count and any complete pool schedule
(the queue has been drained), the value computed by
`compute_parallel_thread_pool` / `ThreadPoolIntegrator::compute` — the sum
of the handle values in submission order — equals the sequential reference
sum of the sub-interval tasks' `compute()` values, and
`AsyncIntegrator::compute` equals the same reference; the result does not
depend on the worker count or on the schedule. -/
theorem threadpool_refines_sequential (xp xk dx : ℝ) (w : ℤ) (n : ℕ)
    (s : PoolState ℝ)
    (h : Reaches (integralRun xp xk dx n) (submitN (mkPool w ℝ) n) s)
    (hq : s.queue = []) :
    poolTotal s n = sequentialTaskSum xp xk dx n ∧
      asyncIntegratorCompute xp xk dx n = sequentialTaskSum xp xk dx n := by
  refine ⟨poolTotal_eq_sequentialTaskSum xp xk dx w n s h hq, ?_⟩
  unfold asyncIntegratorCompute sequentialTaskSum
  exact foldl_add_range _ _

/-- Witness for C9: one sub-interval task on a one-worker pool, run to a
drained queue, sums to the sequential reference. -/
theorem threadpool_refines_sequential_witness :
    poolTotal c9S1 1 = sequentialTaskSum 0 1 1 1 ∧
      asyncIntegratorCompute 0 1 1 1 = sequentialTaskSum 0 1 1 1 :=
  threadpool_refines_sequential 0 1 1 1 1 c9S1
    (Relation.ReflTransGen.single (Step.workerRun c9S0 0 [] rfl (by decide)))
    rfl

/-- C10.  The constructor establishes, for `xp < xk` and `0 < dx ≤ xk - xp`:
`N_ = ⌈(xk - xp)/dx⌉ ≥ 1`, `dx_ = (xk - xp)/N_`, `N_ · dx_ = xk - xp`
exactly, `0 < dx_ ≤ dx`; `compute()` is the sum of exactly `N_` trapezoid
terms whose panels tile `[xp, xk]`: each panel has width `dx_ > 0`, panel
`i` ends where panel `i + 1` starts, and the last panel ends at
`xp + N_ · dx_ = xk`.  For `xk ≤ xp` (and `0 < dx`) instead `N_ ≤ 0`, the
loop body never runs, and `compute()` returns `0` — even though the
constructor's division `(xk - xp)/N_` is unguarded against `N_ = 0`. -/
theorem integralTask_ctor_compute (xp xk dx : ℝ) :
    (xp < xk → 0 < dx → dx ≤ xk - xp →
      1 ≤ (IntegralTask.ofParams xp xk dx).N_ ∧
      (IntegralTask.ofParams xp xk dx).dx_
        = (xk - xp) / (((IntegralTask.ofParams xp xk dx).N_ : ℤ) : ℝ) ∧
      (((IntegralTask.ofParams xp xk dx).N_ : ℤ) : ℝ)
          * (IntegralTask.ofParams xp xk dx).dx_ = xk - xp ∧
      (IntegralTask.ofParams xp xk dx).dx_ ≤ dx ∧
      0 < (IntegralTask.ofParams xp xk dx).dx_ ∧
      (IntegralTask.ofParams xp xk dx).compute
        = ∑ i in Finset.range (IntegralTask.ofParams xp xk dx).N_.toNat,
            (IntegralTask.ofParams xp xk dx).trapTerm i ∧
      xp + (((IntegralTask.ofParams xp xk dx).N_ : ℤ) : ℝ)
          * (IntegralTask.ofParams xp xk dx).dx_ = xk) ∧
    (xk ≤ xp → 0 < dx →
      (IntegralTask.ofParams xp xk dx).N_ ≤ 0 ∧
      (IntegralTask.ofParams xp xk dx).compute = 0) := by
  constructor
  · intro hx hd hdr
    have hr : (0 : ℝ) < xk - xp := sub_pos.mpr hx
    have hpos : (0 : ℝ) < (xk - xp) / dx := div_pos hr hd
    have hN : 0 < ⌈(xk - xp) / dx⌉ := Int.ceil_pos.mpr hpos
    have hNR : (0 : ℝ) < ((⌈(xk - xp) / dx⌉ : ℤ) : ℝ) := by exact_mod_cast hN
    have hceil : (xk - xp) / dx ≤ ((⌈(xk - xp) / dx⌉ : ℤ) : ℝ) := Int.le_ceil _
    have hle : xk - xp ≤ ((⌈(xk - xp) / dx⌉ : ℤ) : ℝ) * dx := (div_le_iff₀ hd).mp hceil
    have hmul : ((⌈(xk - xp) / dx⌉ : ℤ) : ℝ) * ((xk - xp) / ((⌈(xk - xp) / dx⌉ : ℤ) : ℝ))
        = xk - xp := by
      rw [mul_comm]
      exact div_mul_cancel₀ _ (ne_of_gt hNR)
    refine ⟨hN, rfl, hmul, ?_, div_pos hr hNR, foldl_add_range _ _, ?_⟩
    · exact (div_le_iff₀ hNR).mpr (by linarith)
    · show xp + ((⌈(xk - xp) / dx⌉ : ℤ) : ℝ) * ((xk - xp) / ((⌈(xk - xp) / dx⌉ : ℤ) : ℝ)) = xk
      rw [hmul]
      ring
  · intro hkp hd
    have hr : xk - xp ≤ 0 := sub_nonpos.mpr hkp
    have hdivle : (xk - xp) / dx ≤ 0 := div_nonpos_iff.mpr (Or.inr ⟨hr, hd.le⟩)
    have hN : ⌈(xk - xp) / dx⌉ ≤ 0 := by
      rw [show (0 : ℤ) = ⌈(0 : ℝ)⌉ by simp]
      exact Int.ceil_le_ceil hdivle
    refine ⟨hN, ?_⟩
    show (List.range (⌈(xk - xp) / dx⌉ : ℤ).toNat).foldl _ 0 = 0
    rw [Int.toNat_eq_zero.mpr hN]
    rfl

/-- Witness for C10: `[0, 1]` with step `1` gives at least one panel, and
the degenerate task over `[1, 0]` computes `0`. -/
theorem integralTask_ctor_compute_witness :
    1 ≤ (IntegralTask.ofParams 0 1 1).N_ ∧
      (IntegralTask.ofParams 1 0 1).compute = 0 :=
  ⟨((integralTask_ctor_compute 0 1 1).1 (by norm_num) (by norm_num) (by norm_num)).1,
   ((integralTask_ctor_compute 1 0 1).2 (by norm_num) (by norm_num)).2⟩

end CppParallel
